import Mathlib

/-!
Shallow embedding of the agelum MCP document store (`createAgelumMcpServer`):
the filename codec (`sanitizeFileNamePart`, `ensureMdExtension`, `formatPriority`,
`formatStoryPoints`, `buildFileName`, `buildFrontmatter`), the `create` / `move` /
`get` tool handlers, and the repository-root discovery (`findRepoRootPath`).

Modelling conventions:
- JS strings are Lean `String`s; the character-level helpers work on `List Char`.
- JS numbers are modelled by `JSNum`: `NaN`, the two infinities, and finite values
  as exact rationals (the claims only exercise comparisons, truncation and the
  rendering of integral values, where doubles and rationals agree).
- The filesystem is an association list from absolute path to file content;
  directory creation (`mkdirSync`, `ensureAgelumStructure`) is not modelled since
  every claim is about files.  `path.join` is modelled as slash concatenation,
  which agrees with Node for the well-formed relative segments the handlers join.
- A JS `throw` is an `Except.error` carrying the thrown message.
-/

/-- Character class of the first sanitizer rule: path separators `/` and `\`
(JS regex `[\/\\]`). -/
def isSepChar (c : Char) : Bool := c = '/' || c = '\\'

/-- Character class of the second sanitizer rule: the null byte and the
filesystem-reserved characters (JS regex `[\0<>:"|?*]`). -/
def isReservedChar (c : Char) : Bool :=
  c = '\x00' || c = '<' || c = '>' || c = ':' || c = '"' || c = '|' || c = '?' || c = '*'

/-- Whitespace as matched by the JS regex `\s` and by `String.prototype.trim`
(ASCII portion: space, tab, newline, carriage return, vertical tab, form feed). -/
def isJsWs (c : Char) : Bool :=
  c = ' ' || c = '\t' || c = '\n' || c = '\r' || c = '\x0b' || c = '\x0c'

/-- One character of `value.replace(/[\/\\]/g, '-')`. -/
def mapSepChar (c : Char) : Char := if isSepChar c then '-' else c

/-- The collapse `value.replace(/\s+/g, ' ')`: every maximal run of whitespace
becomes a single space.  The flag records whether the previous character was
part of a whitespace run already collapsed. -/
def collapseWsAux : Bool → List Char → List Char
  | _, [] => []
  | prevWs, c :: cs =>
    if isJsWs c then
      if prevWs then collapseWsAux true cs else ' ' :: collapseWsAux true cs
    else c :: collapseWsAux false cs

/-- JS `String.prototype.trim`: drop whitespace from both ends. -/
def jsTrimChars (l : List Char) : List Char :=
  ((l.dropWhile isJsWs).reverse.dropWhile isJsWs).reverse

/-- Character-level body of `sanitizeFileNamePart`: replace separators with `-`,
strip reserved characters, collapse whitespace runs to single spaces, trim. -/
def sanitizeChars (l : List Char) : List Char :=
  jsTrimChars (collapseWsAux false ((l.map mapSepChar).filter (fun c => !isReservedChar c)))

/-- Source `sanitizeFileNamePart`. -/
def sanitizeFileNamePart (s : String) : String := ⟨sanitizeChars s.data⟩

/-- Source `ensureMdExtension`: trim, then append `.md` unless the name already
ends in `.md` (case-insensitively). -/
def ensureMdExtension (fileName : String) : String :=
  let trimmed : List Char := jsTrimChars fileName.data
  if List.isSuffixOf ['.', 'm', 'd'] (trimmed.map Char.toLower) then ⟨trimmed⟩
  else ⟨trimmed ++ ['.', 'm', 'd']⟩

/-- A JS `number`: `NaN`, the infinities, or a finite value (exact rational). -/
inductive JSNum where
  | nan
  | posInf
  | negInf
  | fin (q : ℚ)
deriving DecidableEq

/-- JS comparison `value < 0` (false on `NaN`). -/
def jsLtZero : JSNum → Bool
  | .nan => false
  | .posInf => false
  | .negInf => true
  | .fin q => decide (q < 0)

/-- JS `Number.isFinite`. -/
def jsIsFinite : JSNum → Bool
  | .fin _ => true
  | _ => false

/-- JS `Number.isInteger`. -/
def jsIsInteger : JSNum → Bool
  | .fin q => q.den = 1
  | _ => false

/-- JS `Math.trunc` on a finite value: rounding toward zero. -/
def jsTruncRat (q : ℚ) : Int := Int.tdiv q.num q.den

/-- The decimal digit character for `d < 10`. -/
def digitChar (d : Nat) : Char := Char.ofNat (48 + d)

/-- Fuel-driven decimal rendering of a natural number (most significant first). -/
def natToDigits : Nat → Nat → List Char
  | 0, _ => []
  | fuel + 1, n =>
    if n < 10 then [digitChar n] else natToDigits fuel (n / 10) ++ [digitChar (n % 10)]

/-- Decimal rendering of a natural number, as produced by JS `String(n)`. -/
def natToString (n : Nat) : String := ⟨natToDigits (n + 1) n⟩

/-- Decimal rendering of an integer, as produced by JS `String(i)`. -/
def intToString (i : Int) : String :=
  if i < 0 then "-" ++ natToString (-i).toNat else natToString i.toNat

/-- JS `String(value)` on a number.  Exact for `NaN`, the infinities and
integral values — the only values the verified claims exercise.  For
non-integral finite values JS prints the shortest round-trip decimal of the
double; this embedding renders them as `"<num>.<den>"`, an injective
placeholder using only filename-safe characters (digits, `-`, `.`), sharing
with the JS rendering the property that distinct values render distinctly and
no rendering contains whitespace, separators or reserved characters. -/
def jsNumToString : JSNum → String
  | .nan => "NaN"
  | .posInf => "Infinity"
  | .negInf => "-Infinity"
  | .fin q =>
    if q.den = 1 then intToString q.num
    else intToString q.num ++ "." ++ natToString q.den

/-- Source `formatStoryPoints` (both branches of its conditional return
`String(value)`). -/
def formatStoryPoints (value : JSNum) : String :=
  if jsIsInteger value then jsNumToString value else jsNumToString value

/-- JS `String.prototype.padStart`. -/
def padStart (s : String) (n : Nat) (c : Char) : String :=
  ⟨List.replicate (n - s.data.length) c ++ s.data⟩

/-- Source `formatPriority`: the source guard `!Number.isFinite(value) || value < 0`
rejects exactly the three non-finite values and the negative finite values;
otherwise it truncates and zero-pads to at least two digits. -/
def formatPriority : JSNum → Except String String
  | .fin q =>
    if q < 0 then .error "priority must be a non-negative number"
    else .ok (padStart (natToString (jsTruncRat q).toNat) 2 '0')
  | _ => .error "priority must be a non-negative number"

/-- Source `DocumentType` enumeration. -/
inductive DocumentType where
  | task | epic | plan | doc | command | skill | agent | context
deriving DecidableEq, Fintype

/-- Source `TaskState` enumeration. -/
inductive TaskState where
  | pending | doing | done
deriving DecidableEq, Fintype

/-- The literal string of a task state (used both as enum value and as the
`tasks/` subdirectory name). -/
def taskStateName : TaskState → String
  | .pending => "pending"
  | .doing => "doing"
  | .done => "done"

/-- The literal string of a document type (used in frontmatter). -/
def docTypeName : DocumentType → String
  | .task => "task"
  | .epic => "epic"
  | .plan => "plan"
  | .doc => "doc"
  | .command => "command"
  | .skill => "skill"
  | .agent => "agent"
  | .context => "context"

/-- Source `nonTaskTypeToDir` record.  The source record has no `task` key and
the handlers only index it for non-task types; the `task` arm is never reached
and returns the empty string. -/
def nonTaskTypeToDir : DocumentType → String
  | .epic => "epics"
  | .plan => "plans"
  | .doc => "docs"
  | .command => "commands"
  | .skill => "skills"
  | .agent => "agents"
  | .context => "context"
  | .task => ""

/-- Node `path.join` of a directory and one further segment, modelled as slash
concatenation. -/
def joinPath (a b : String) : String := a ++ "/" ++ b

/-- The filesystem: an association list from absolute path to file content.
Earlier entries shadow later ones (there are never duplicate keys in the states
the handlers build). -/
abbrev FS := List (String × String)

/-- File lookup by path. -/
def lookupFS : FS → String → Option String
  | [], _ => none
  | (q, v) :: t, p => if q = p then some v else lookupFS t p

/-- `fs.existsSync` on a file path. -/
def fsExists (fs : FS) (p : String) : Bool := (lookupFS fs p).isSome

/-- `fs.writeFileSync`: insert or overwrite. -/
def setFS : FS → String → String → FS
  | [], p, v => [(p, v)]
  | (q, w) :: t, p, v => if q = p then (p, v) :: t else (q, w) :: setFS t p v

/-- Deletion of a path (the source half of a rename). -/
def eraseFS : FS → String → FS
  | [], _ => []
  | (q, w) :: t, p => if q = p then eraseFS t p else (q, w) :: eraseFS t p

/-- `fs.renameSync`: move the content of `p` to `q`. -/
def renameFS (fs : FS) (p q : String) : FS :=
  match lookupFS fs p with
  | some v => setFS (eraseFS fs p) q v
  | none => fs

/-- Arguments of the `create` tool after the handler's destructuring defaults
(`content = ''`, `state = 'pending'`) have been applied. -/
structure CreateArgs where
  type : DocumentType
  title : String
  content : String
  state : TaskState
  priority : Option JSNum
  storyPoints : Option JSNum
  fileName : Option String
deriving DecidableEq

/-- The `create` handler's filename resolution:
`ensureMdExtension(sanitizeFileNamePart(fileName ?? buildFileName({...})))`. -/
def buildFileName (type : DocumentType) (title : String)
    (priority storyPoints : Option JSNum) : Except String String :=
  let t := sanitizeFileNamePart title
  if t = "" then .error "title is required"
  else if type = .task then
    match priority with
    | none => .error "priority is required for task"
    | some p =>
      match storyPoints with
      | none => .error "storyPoints is required for task"
      | some sp =>
        match formatPriority p with
        | .error e => .error e
        | .ok ps => .ok (ps ++ " " ++ t ++ " (" ++ formatStoryPoints sp ++ ").md")
  else
    match storyPoints with
    | some sp => .ok (t ++ " (" ++ formatStoryPoints sp ++ ").md")
    | none => .ok (t ++ ".md")

/-- Filename resolution of the `create` handler. -/
def createResolveFileName (a : CreateArgs) : Except String String :=
  match a.fileName with
  | some f => .ok (ensureMdExtension (sanitizeFileNamePart f))
  | none =>
    match buildFileName a.type a.title a.priority a.storyPoints with
    | .error e => .error e
    | .ok n => .ok (ensureMdExtension (sanitizeFileNamePart n))

/-- `path.join(agelumPath, 'tasks', state)`. -/
def taskDirPath (agelumPath : String) (s : TaskState) : String :=
  joinPath (joinPath agelumPath "tasks") (taskStateName s)

/-- The `create` handler's target directory. -/
def createTargetDir (agelumPath : String) (a : CreateArgs) : String :=
  if a.type = .task then taskDirPath agelumPath a.state
  else joinPath agelumPath (nonTaskTypeToDir a.type)

/-- Source `buildFrontmatter`, as the list of lines before the closing `---`
(the `created` timestamp `new Date().toISOString()` is passed in as `now`). -/
def buildFrontmatterLines (type : DocumentType) (title now : String)
    (state : Option TaskState) (priority storyPoints : Option JSNum) :
    Except String (List String) :=
  let base := ["---", "title: " ++ title, "created: " ++ now, "type: " ++ docTypeName type]
  if type = .task then
    match state with
    | none => .error "state is required for task"
    | some s =>
      let l1 := base ++ ["state: " ++ taskStateName s]
      match priority with
      | some p =>
        match formatPriority p with
        | .error e => .error e
        | .ok ps =>
          let l2 := l1 ++ ["priority: " ++ ps]
          match storyPoints with
          | some sp => .ok (l2 ++ ["storyPoints: " ++ formatStoryPoints sp])
          | none => .ok l2
      | none =>
        match storyPoints with
        | some sp => .ok (l1 ++ ["storyPoints: " ++ formatStoryPoints sp])
        | none => .ok l1
  else
    match storyPoints with
    | some sp => .ok (base ++ ["storyPoints: " ++ formatStoryPoints sp])
    | none => .ok base

/-- Source `buildFrontmatter`: the lines joined by newlines, closed by `---`
and a trailing newline. -/
def buildFrontmatter (type : DocumentType) (title now : String)
    (state : Option TaskState) (priority storyPoints : Option JSNum) :
    Except String String :=
  match buildFrontmatterLines type title now state priority storyPoints with
  | .error e => .error e
  | .ok ls => .ok (String.intercalate "\n" (ls ++ ["---"]) ++ "\n")

/-- The full document the `create` handler writes: frontmatter followed by the
body `\n# <title>\n\n<content>\n`. -/
def createContent (a : CreateArgs) (now : String) : Except String String :=
  match buildFrontmatter a.type a.title now (some a.state) a.priority a.storyPoints with
  | .error e => .error e
  | .ok fm => .ok (fm ++ ("\n# " ++ a.title ++ "\n\n" ++ a.content ++ "\n"))

/-- The `create` tool handler. -/
def createTool (agelumPath now : String) (fs : FS) (a : CreateArgs) :
    Except String (FS × String) :=
  match createResolveFileName a with
  | .error e => .error e
  | .ok resolvedFileName =>
    let filePath := joinPath (createTargetDir agelumPath a) resolvedFileName
    if fsExists fs filePath then .error ("File already exists: " ++ filePath)
    else
      match createContent a now with
      | .error e => .error e
      | .ok doc => .ok (setFS fs filePath doc, filePath)

/-- Arguments of the `move` tool (its `type` is fixed to `task` by the schema;
the handler default `title = ''` has been applied). -/
structure MoveArgs where
  title : String
  priority : Option JSNum
  storyPoints : Option JSNum
  fileName : Option String
  fromState : TaskState
  toState : TaskState
deriving DecidableEq

/-- The `move` handler's filename derivation used when `fileName` is falsy:
it requires a title and builds the name from title/priority/storyPoints. -/
def moveDeriveFileName (a : MoveArgs) : Except String String :=
  if a.title = "" then .error "title is required if fileName is not provided"
  else
    match buildFileName .task a.title a.priority a.storyPoints with
    | .error e => .error e
    | .ok n => .ok (ensureMdExtension n)

/-- The `move` handler's filename resolution: an explicit truthy (non-empty)
`fileName` is used as-is with only `ensureMdExtension` applied — unlike
`create`, no `sanitizeFileNamePart` — while a falsy one (absent or empty, both
falsy in JS) falls through to derivation from title/priority/storyPoints. -/
def moveResolveFileName (a : MoveArgs) : Except String String :=
  match a.fileName with
  | some f => if f = "" then moveDeriveFileName a else .ok (ensureMdExtension f)
  | none => moveDeriveFileName a

/-- The `move` tool handler. -/
def moveTool (agelumPath : String) (fs : FS) (a : MoveArgs) :
    Except String (FS × String × String) :=
  if a.fromState = a.toState then .error "fromState and toState must be different"
  else
    match moveResolveFileName a with
    | .error e => .error e
    | .ok sourceFileName =>
      let sourcePath := joinPath (taskDirPath agelumPath a.fromState) sourceFileName
      if !fsExists fs sourcePath then .error ("Source file not found: " ++ sourcePath)
      else
        let targetPath := joinPath (taskDirPath agelumPath a.toState) sourceFileName
        if fsExists fs targetPath then .error ("Target file already exists: " ++ targetPath)
        else .ok (renameFS fs sourcePath targetPath, sourcePath, targetPath)

/-- Arguments of the `get` tool (the handler default `title = ''` applied). -/
structure GetArgs where
  type : DocumentType
  title : String
  state : Option TaskState
  priority : Option JSNum
  storyPoints : Option JSNum
  fileName : Option String
deriving DecidableEq

/-- JS truthiness of the handler's `resolvedFileName` variable: `undefined`
(`none`) and the empty string are falsy. -/
def optTruthy : Option String → Bool
  | none => false
  | some s => if s = "" then false else true

/-- Stage one of the `get` handler's filename resolution: when `fileName` is
falsy, require a title and derive the name via `buildFileName` — for tasks only
when both priority and storyPoints are present (otherwise `resolvedFileName`
stays as it was). -/
def getStage1 (a : GetArgs) : Except String (Option String) :=
  if optTruthy a.fileName then .ok a.fileName
  else if a.title = "" then .error "title is required if fileName is not provided"
  else if a.type = .task then
    if a.priority.isSome && a.storyPoints.isSome then
      match buildFileName .task a.title a.priority a.storyPoints with
      | .error e => .error e
      | .ok n => .ok (some n)
    else .ok a.fileName
  else
    match buildFileName a.type a.title a.priority a.storyPoints with
    | .error e => .error e
    | .ok n => .ok (some n)

/-- Stage two of the `get` handler's filename resolution: the sanitized-title
fallback guess, taken when the name is still falsy and the type is `task`. -/
def getStage2 (a : GetArgs) (r1 : Option String) : Option String :=
  if optTruthy r1 = false ∧ a.type = .task then
    some (ensureMdExtension (sanitizeFileNamePart a.title))
  else r1

/-- The `get` handler's filename resolution: the two stages above, then
`ensureMdExtension` on a truthy result, or the unresolvable-filename error. -/
def getResolveFileName (a : GetArgs) : Except String String :=
  match getStage1 a with
  | .error e => .error e
  | .ok r1 =>
    match getStage2 a r1 with
    | some s =>
      if s = "" then .error "Could not resolve filename from arguments"
      else .ok (ensureMdExtension s)
    | none => .error "Could not resolve filename from arguments"

/-- The `get` handler's candidate paths, in the order the source pushes them. -/
def getCandidatePaths (agelumPath : String) (a : GetArgs) (n : String) : List String :=
  if a.type = .task then
    match a.state with
    | some s => [joinPath (taskDirPath agelumPath s) n]
    | none =>
      [joinPath (taskDirPath agelumPath .pending) n,
       joinPath (taskDirPath agelumPath .doing) n,
       joinPath (taskDirPath agelumPath .done) n]
  else [joinPath (joinPath agelumPath (nonTaskTypeToDir a.type)) n]

/-- The `get` tool handler: first existing candidate with `exists: true`, else
the first candidate with `exists: false`.  The empty-candidates arm is
unreachable (`getCandidatePaths` never returns `[]`). -/
def getTool (agelumPath : String) (fs : FS) (a : GetArgs) :
    Except String (String × Bool) :=
  match getResolveFileName a with
  | .error e => .error e
  | .ok n =>
    let possiblePaths := getCandidatePaths agelumPath a n
    match possiblePaths.find? (fun p => fsExists fs p) with
    | some p => .ok (p, true)
    | none =>
      match possiblePaths with
      | p :: _ => .ok (p, false)
      | [] => .error "unreachable: candidate list is never empty"

/-- Source `findRepoRootPath`'s `while` loop.  Directories are modelled as
component lists (an absolute path's segments, `[]` being the filesystem root),
`path.dirname` as `dropLast` (with `dirname(root) = root` showing up as the
`parent = cur` fixpoint), and `fs.existsSync` as the predicate `ex`.  The fuel
is the number of remaining iterations (`MAX_DEPTH - depth`). -/
def findRepoRootLoop (ex : List String → Bool) : Nat → List String → Option (List String)
  | 0, _ => none
  | fuel + 1, cur =>
    if ex (cur ++ [".git"]) then some cur
    else
      let parent := cur.dropLast
      if parent = cur then none
      else findRepoRootLoop ex fuel parent

/-- Source `findRepoRootPath`: walk up from `cwd` looking for `.git` (at most
`MAX_DEPTH = 10` probes), then fall back to the global config root if it
exists, else `null`. -/
def findRepoRootPath (ex : List String → Bool) (cwd : List String)
    (globalConfigRoot : Option (List String)) : Option (List String) :=
  match findRepoRootLoop ex 10 cwd with
  | some r => some r
  | none =>
    match globalConfigRoot with
    | some h => if ex h then some h else none
    | none => none

/-- Modelled from the spec (§4.1 RootResolver), for the refinement claim C7:
the ancestor directories probed by the walk, starting at `cwd`, each obtained
from the previous by `dirname`, stopping at the filesystem root and after at
most `fuel` entries. -/
def rootCandidates : Nat → List String → List (List String)
  | 0, _ => []
  | fuel + 1, cur =>
    cur :: (if cur.dropLast = cur then [] else rootCandidates fuel cur.dropLast)

/-- Modelled from the spec (§4.1 RootResolver), for the refinement claim C7:
return the first probed ancestor containing a `.git` entry; if none is found
within the depth bound, return the fallback hint when it is provided and
exists on disk (no `.git` marker required); otherwise fail. -/
def resolveRootSpec (ex : List String → Bool) (cwd : List String)
    (fallbackHint : Option (List String)) : Option (List String) :=
  match (rootCandidates 10 cwd).find? (fun c => ex (c ++ [".git"])) with
  | some c => some c
  | none =>
    match fallbackHint with
    | some h => if ex h then some h else none
    | none => none

instance {ε α : Type} [DecidableEq ε] [DecidableEq α] : DecidableEq (Except ε α) := fun a b =>
  match a, b with
  | .ok x, .ok y =>
    if h : x = y then .isTrue (by rw [h])
    else .isFalse (by intro hc; injection hc; contradiction)
  | .error x, .error y =>
    if h : x = y then .isTrue (by rw [h])
    else .isFalse (by intro hc; injection hc; contradiction)
  | .ok _, .error _ => .isFalse (by intro hc; injection hc)
  | .error _, .ok _ => .isFalse (by intro hc; injection hc)

/-- The JS number 3.5 (= 7/2), a concrete non-integral priority value used as
counterexample input. -/
def threePointFive : ℚ := Rat.mk' 7 2 (by decide) (by decide)

/-- Evaluation of a decimal digit string by a left fold; inverse of the decimal
renderings, used to prove them injective. -/
def parseDigits (l : List Char) : Nat :=
  l.foldl (fun a c => a * 10 + (c.toNat - 48)) 0

theorem parseDigits_snoc (l : List Char) (c : Char) :
    parseDigits (l ++ [c]) = parseDigits l * 10 + (c.toNat - 48) := by
  simp [parseDigits, List.foldl_append]

theorem digitChar_toNat {d : Nat} (h : d < 10) : (digitChar d).toNat = 48 + d := by
  interval_cases d <;> decide

theorem natToDigits_parse : ∀ (fuel n : Nat), n < fuel → parseDigits (natToDigits fuel n) = n := by
  intro fuel
  induction fuel with
  | zero => intro n h; omega
  | succ fuel ih =>
    intro n h
    by_cases h10 : n < 10
    · simp [natToDigits, h10, parseDigits, List.foldl, digitChar_toNat h10]
    · have hlt : n / 10 < n := Nat.div_lt_self (by omega) (by omega)
      have hdiv : n / 10 < fuel := by omega
      simp only [natToDigits, h10, if_false]
      rw [parseDigits_snoc, ih (n / 10) hdiv, digitChar_toNat (Nat.mod_lt n (by omega))]
      omega

theorem natToString_parse (n : Nat) : parseDigits (natToString n).data = n :=
  natToDigits_parse (n + 1) n (Nat.lt_succ_self n)

theorem parseDigits_cons_zero (t : List Char) : parseDigits ('0' :: t) = parseDigits t := by
  have h0 : (0 : Nat) * 10 + ('0'.toNat - 48) = 0 := by decide
  simp only [parseDigits, List.foldl, h0]

theorem parseDigits_replicate_zero (k : Nat) (l : List Char) :
    parseDigits (List.replicate k '0' ++ l) = parseDigits l := by
  induction k with
  | zero => simp
  | succ k ih => rw [List.replicate_succ, List.cons_append, parseDigits_cons_zero, ih]

theorem parse_padStart_natToString (n : Nat) :
    parseDigits (padStart (natToString n) 2 '0').data = n := by
  show parseDigits (List.replicate _ '0' ++ (natToString n).data) = n
  rw [parseDigits_replicate_zero, natToString_parse]

theorem formatPriority_fin_ok {q : ℚ} (h : ¬ q < 0) :
    formatPriority (.fin q) = .ok (padStart (natToString (jsTruncRat q).toNat) 2 '0') := by
  simp [formatPriority, h]

theorem formatPriority_fin_ok_inv {q : ℚ} {ps : String}
    (h : formatPriority (.fin q) = .ok ps) :
    ¬ q < 0 ∧ ps = padStart (natToString (jsTruncRat q).toNat) 2 '0' := by
  by_cases hq : q < 0
  · simp [formatPriority, hq] at h
  · simp [formatPriority, hq] at h
    exact ⟨hq, h.symm⟩

theorem jsTruncRat_nonneg {q : ℚ} (h : ¬ q < 0) : 0 ≤ jsTruncRat q := by
  have hq : 0 ≤ q := not_lt.mp h
  have hnum : 0 ≤ q.num := Rat.num_nonneg.mpr hq
  exact Int.tdiv_nonneg hnum (Int.ofNat_nonneg q.den)

theorem padStart_trunc_inj {q1 q2 : ℚ} (h1 : ¬ q1 < 0) (h2 : ¬ q2 < 0)
    (h : padStart (natToString (jsTruncRat q1).toNat) 2 '0' =
         padStart (natToString (jsTruncRat q2).toNat) 2 '0') :
    jsTruncRat q1 = jsTruncRat q2 := by
  have hd := congrArg (fun s => parseDigits s.data) h
  simp only [parse_padStart_natToString] at hd
  have g1 := jsTruncRat_nonneg h1
  have g2 := jsTruncRat_nonneg h2
  omega

theorem buildFileName_task_ok {title : String} {p sp : JSNum} {n : String}
    (h : buildFileName .task title (some p) (some sp) = .ok n) :
    ∃ ps, formatPriority p = .ok ps ∧ sanitizeFileNamePart title ≠ "" ∧
      n = ps ++ " " ++ sanitizeFileNamePart title ++ " (" ++ formatStoryPoints sp ++ ").md" := by
  by_cases ht : sanitizeFileNamePart title = ""
  · simp [buildFileName, ht] at h
  · cases hfp : formatPriority p with
    | error e => simp [buildFileName, ht, hfp] at h
    | ok ps =>
      simp [buildFileName, ht, hfp] at h
      exact ⟨ps, rfl, ht, h.symm⟩

/-- C8: priority formatting truncates to an integer and zero-pads to at least
2 digits (3 encodes to "03", 42 to "42"); it fails with the InvalidPriority
error exactly when the priority is negative or non-finite (e.g. -1 or NaN). -/
theorem C8_formatPriority_spec :
    formatPriority (.fin 3) = .ok "03" ∧
    formatPriority (.fin 42) = .ok "42" ∧
    formatPriority (.fin threePointFive) = .ok "03" ∧
    formatPriority (.fin (-1)) = .error "priority must be a non-negative number" ∧
    formatPriority .nan = .error "priority must be a non-negative number" ∧
    (∀ q : ℚ, 0 ≤ q →
      formatPriority (.fin q) = .ok (padStart (natToString (jsTruncRat q).toNat) 2 '0') ∧
      2 ≤ (padStart (natToString (jsTruncRat q).toNat) 2 '0').length) ∧
    (∀ v : JSNum,
      (∃ e, formatPriority v = .error e) ↔ (jsIsFinite v = false ∨ jsLtZero v = true)) := by
  refine ⟨by decide, by decide, by decide, by decide, by decide, ?_, ?_⟩
  · intro q hq
    have h : ¬ q < 0 := not_lt.mpr hq
    refine ⟨formatPriority_fin_ok h, ?_⟩
    show 2 ≤ (List.replicate (2 - (natToString (jsTruncRat q).toNat).data.length) '0' ++
      (natToString (jsTruncRat q).toNat).data).length
    rw [List.length_append, List.length_replicate]
    omega
  · intro v
    cases v with
    | nan => simp [formatPriority, jsIsFinite]
    | posInf => simp [formatPriority, jsIsFinite]
    | negInf => simp [formatPriority, jsIsFinite]
    | fin q =>
      by_cases hq : q < 0 <;> simp [formatPriority, jsIsFinite, jsLtZero, hq]

/-- C8 witness: the universally quantified parts of `C8_formatPriority_spec`
instantiated at the concrete priority 5. -/
theorem C8_formatPriority_witness :
    formatPriority (.fin 5) = .ok (padStart (natToString (jsTruncRat 5).toNat) 2 '0') ∧
    ((∃ e, formatPriority (.fin (-2 : ℚ)) = .error e) ↔
      (jsIsFinite (.fin (-2 : ℚ)) = false ∨ jsLtZero (.fin (-2 : ℚ)) = true)) :=
  ⟨(C8_formatPriority_spec.2.2.2.2.2.1 5 (by norm_num)).1,
   C8_formatPriority_spec.2.2.2.2.2.2 (.fin (-2 : ℚ))⟩

/-- C1 counterexample: the priorities 3 and 3.5 are distinct valid priority
values (finite and non-negative), yet with the same title "a" and the same
storyPoints 1 they encode to the same filename "03 a (1).md", because
`formatPriority` truncates before rendering.  This falsifies the claim that
differing priority values always yield different filenames. -/
theorem C1_counterexample :
    JSNum.fin 3 ≠ JSNum.fin threePointFive ∧
    jsIsFinite (JSNum.fin threePointFive) = true ∧
    jsLtZero (JSNum.fin threePointFive) = false ∧
    buildFileName .task "a" (some (.fin 3)) (some (.fin 1)) = .ok "03 a (1).md" ∧
    buildFileName .task "a" (some (.fin threePointFive)) (some (.fin 1)) =
      .ok "03 a (1).md" := by
  refine ⟨by decide, by decide, by decide, by decide, by decide⟩

/-- C1 (amended): for every valid task identity the encoding is deterministic
(the same {title, priority, storyPoints} always yields the same filename), and
it is injective in the TRUNCATED priority: two identities with identical title
and storyPoints whose priorities have different integer truncations encode to
different filenames.  (Priorities with equal truncations, such as 3 and 3.5,
collide — see `C1_counterexample`.) -/
theorem C1_encode_det_and_trunc_injective :
    (∀ (type : DocumentType) (title : String) (priority storyPoints : Option JSNum),
      buildFileName type title priority storyPoints =
        buildFileName type title priority storyPoints) ∧
    (∀ (title : String) (q1 q2 : ℚ) (sp : JSNum) (n1 n2 : String),
      buildFileName .task title (some (.fin q1)) (some sp) = .ok n1 →
      buildFileName .task title (some (.fin q2)) (some sp) = .ok n2 →
      jsTruncRat q1 ≠ jsTruncRat q2 →
      n1 ≠ n2) := by
  refine ⟨fun _ _ _ _ => rfl, ?_⟩
  intro title q1 q2 sp n1 n2 h1 h2 hne heq
  obtain ⟨ps1, hp1, ht, hn1⟩ := buildFileName_task_ok h1
  obtain ⟨ps2, hp2, -, hn2⟩ := buildFileName_task_ok h2
  obtain ⟨hq1, hps1⟩ := formatPriority_fin_ok_inv hp1
  obtain ⟨hq2, hps2⟩ := formatPriority_fin_ok_inv hp2
  subst hn1 hn2
  have hd := congrArg String.data heq
  simp only [String.data_append, List.append_assoc] at hd
  have hps : ps1.data = ps2.data := List.append_cancel_right hd
  have hps' : ps1 = ps2 := by
    cases ps1; cases ps2; exact congrArg String.mk hps
  exact hne (padStart_trunc_inj hq1 hq2 (hps1 ▸ hps2 ▸ hps'))

/-- C1 witness: the injectivity half of `C1_encode_det_and_trunc_injective`
applied at priorities 3 and 12 (truncations 3 and 12), title "a",
storyPoints 1, separating "03 a (1).md" from "12 a (1).md". -/
theorem C1_encode_witness : "03 a (1).md" ≠ ("12 a (1).md" : String) :=
  C1_encode_det_and_trunc_injective.2 "a" 3 12 (.fin 1) "03 a (1).md" "12 a (1).md"
    (by decide) (by decide) (by decide)

theorem lookupFS_setFS_self (fs : FS) (p v : String) :
    lookupFS (setFS fs p v) p = some v := by
  induction fs with
  | nil => simp [setFS, lookupFS]
  | cons kv t ih =>
    obtain ⟨k, w⟩ := kv
    by_cases hk : k = p
    · simp [setFS, hk, lookupFS]
    · simp [setFS, hk, lookupFS, ih]

theorem lookupFS_setFS_ne (fs : FS) (p v q : String) (h : p ≠ q) :
    lookupFS (setFS fs p v) q = lookupFS fs q := by
  induction fs with
  | nil => simp [setFS, lookupFS, h]
  | cons kv t ih =>
    obtain ⟨k, w⟩ := kv
    by_cases hk : k = p
    · subst hk; simp [setFS, lookupFS, h]
    · simp [setFS, hk, lookupFS, ih]

theorem lookupFS_eraseFS_self (fs : FS) (p : String) :
    lookupFS (eraseFS fs p) p = none := by
  induction fs with
  | nil => simp [eraseFS, lookupFS]
  | cons kv t ih =>
    obtain ⟨k, w⟩ := kv
    by_cases hk : k = p
    · simp [eraseFS, hk, ih]
    · simp [eraseFS, hk, lookupFS, ih]

theorem lookupFS_eraseFS_ne (fs : FS) (p q : String) (h : p ≠ q) :
    lookupFS (eraseFS fs p) q = lookupFS fs q := by
  induction fs with
  | nil => simp [eraseFS]
  | cons kv t ih =>
    obtain ⟨k, w⟩ := kv
    by_cases hk : k = p
    · subst hk; simp [eraseFS, lookupFS, h, ih]
    · simp [eraseFS, hk, lookupFS, ih]

theorem formatPriority_error_msg {v : JSNum} {e : String}
    (h : formatPriority v = .error e) : e = "priority must be a non-negative number" := by
  cases v with
  | fin q =>
    by_cases hq : q < 0
    · simp [formatPriority, hq] at h; exact h.symm
    · simp [formatPriority, hq] at h
  | nan => simp [formatPriority] at h; exact h.symm
  | posInf => simp [formatPriority] at h; exact h.symm
  | negInf => simp [formatPriority] at h; exact h.symm

theorem buildFileName_error_msg {type : DocumentType} {title : String}
    {p sp : Option JSNum} {e : String} (h : buildFileName type title p sp = .error e) :
    e = "title is required" ∨ e = "priority is required for task" ∨
    e = "storyPoints is required for task" ∨
    e = "priority must be a non-negative number" := by
  by_cases ht : sanitizeFileNamePart title = ""
  · simp [buildFileName, ht] at h
    exact .inl h.symm
  · by_cases htask : type = .task
    · subst htask
      cases p with
      | none =>
        simp [buildFileName, ht] at h
        exact .inr (.inl h.symm)
      | some pv =>
        cases sp with
        | none =>
          simp [buildFileName, ht] at h
          exact .inr (.inr (.inl h.symm))
        | some spv =>
          cases hfp : formatPriority pv with
          | error e2 =>
            simp [buildFileName, ht, hfp] at h
            exact .inr (.inr (.inr (h ▸ formatPriority_error_msg hfp)))
          | ok ps => simp [buildFileName, ht, hfp] at h
    · cases sp with
      | none => simp [buildFileName, ht, htask] at h
      | some spv => simp [buildFileName, ht, htask] at h

theorem moveDeriveFileName_error_ne {a : MoveArgs} {e : String}
    (h : moveDeriveFileName a = .error e) :
    e ≠ "fromState and toState must be different" := by
  by_cases ht : a.title = ""
  · simp [moveDeriveFileName, ht] at h
    rw [← h]; decide
  · simp only [moveDeriveFileName, ht, if_false] at h
    cases hb : buildFileName .task a.title a.priority a.storyPoints with
    | error e2 =>
      rw [hb] at h
      simp at h
      rcases buildFileName_error_msg hb with h4 | h4 | h4 | h4 <;>
        (rw [← h, h4]; decide)
    | ok n => rw [hb] at h; simp at h

theorem moveResolveFileName_error_ne {a : MoveArgs} {e : String}
    (h : moveResolveFileName a = .error e) :
    e ≠ "fromState and toState must be different" := by
  cases hf : a.fileName with
  | none =>
    rw [moveResolveFileName, hf] at h
    exact moveDeriveFileName_error_ne h
  | some f =>
    rw [moveResolveFileName, hf] at h
    by_cases hfe : f = ""
    · simp only [hfe, if_true] at h
      exact moveDeriveFileName_error_ne h
    · simp [hfe] at h

theorem sourceNotFound_ne_invalidTransition (p : String) :
    ("Source file not found: " ++ p) ≠ "fromState and toState must be different" := by
  intro h
  have hd := congrArg String.data h
  rw [String.data_append,
      show "Source file not found: ".data = 'S' :: "ource file not found: ".data from rfl,
      List.cons_append,
      show "fromState and toState must be different".data =
        'f' :: "romState and toState must be different".data from rfl] at hd
  injection hd with h1 h2
  exact absurd h1 (by decide)

theorem targetExists_ne_invalidTransition (p : String) :
    ("Target file already exists: " ++ p) ≠ "fromState and toState must be different" := by
  intro h
  have hd := congrArg String.data h
  rw [String.data_append,
      show "Target file already exists: ".data = 'T' :: "arget file already exists: ".data from rfl,
      List.cons_append,
      show "fromState and toState must be different".data =
        'f' :: "romState and toState must be different".data from rfl] at hd
  injection hd with h1 h2
  exact absurd h1 (by decide)

/-- C3: `move` fails with the InvalidTransition error exactly when `fromState`
equals `toState` — it does so for every filesystem state (the check precedes
any filesystem probe), and every pair of distinct states (including done to
pending) is accepted by the state machine when the source file exists and the
target does not. -/
theorem C3_move_invalid_transition_iff :
    (∀ (ag : String) (fs : FS) (a : MoveArgs), a.fromState = a.toState →
      moveTool ag fs a = .error "fromState and toState must be different") ∧
    (∀ (ag : String) (fs : FS) (a : MoveArgs),
      moveTool ag fs a = .error "fromState and toState must be different" →
      a.fromState = a.toState) ∧
    (∀ s1 s2 : TaskState, s1 ≠ s2 →
      (moveTool "/repo/agelum"
        [(joinPath (taskDirPath "/repo/agelum" s1) "t.md", "doc")]
        ⟨"t", none, none, some "t.md", s1, s2⟩).isOk = true) := by
  refine ⟨?_, ?_, by decide⟩
  · intro ag fs a h
    simp [moveTool, h]
  · intro ag fs a h
    by_cases he : a.fromState = a.toState
    · exact he
    · exfalso
      simp only [moveTool, he, if_false] at h
      cases hr : moveResolveFileName a with
      | error e =>
        rw [hr] at h
        simp at h
        exact moveResolveFileName_error_ne hr h
      | ok n =>
        rw [hr] at h
        by_cases hsrc : fsExists fs (joinPath (taskDirPath ag a.fromState) n) = true
        · by_cases htgt : fsExists fs (joinPath (taskDirPath ag a.toState) n) = true
          · simp [hsrc, htgt] at h
            exact targetExists_ne_invalidTransition _ h
          · simp [hsrc, htgt] at h
        · simp [hsrc] at h
          exact sourceNotFound_ne_invalidTransition _ h

/-- C3 witness: the InvalidTransition equality applied at a concrete no-op
request (`pending → pending`) over the empty filesystem, and the
distinct-state success applied at `done → pending`. -/
theorem C3_move_invalid_transition_witness :
    moveTool "/repo/agelum" [] ⟨"t", none, none, some "t.md", .pending, .pending⟩ =
      .error "fromState and toState must be different" ∧
    (moveTool "/repo/agelum"
      [(joinPath (taskDirPath "/repo/agelum" TaskState.done) "t.md", "doc")]
      ⟨"t", none, none, some "t.md", .done, .pending⟩).isOk = true :=
  ⟨C3_move_invalid_transition_iff.1 "/repo/agelum" []
      ⟨"t", none, none, some "t.md", .pending, .pending⟩ rfl,
   C3_move_invalid_transition_iff.2.2 .done .pending (by decide)⟩

theorem createTool_ok_inv {ag now : String} {fs : FS} {a : CreateArgs} {fs1 : FS} {p : String}
    (h : createTool ag now fs a = .ok (fs1, p)) :
    ∃ n doc, createResolveFileName a = .ok n ∧
      p = joinPath (createTargetDir ag a) n ∧
      fsExists fs p = false ∧
      createContent a now = .ok doc ∧
      fs1 = setFS fs p doc := by
  cases hr : createResolveFileName a with
  | error e => simp [createTool, hr] at h
  | ok n =>
    simp only [createTool, hr] at h
    by_cases hex : fsExists fs (joinPath (createTargetDir ag a) n) = true
    · simp [hex] at h
    · simp only [hex, Bool.false_eq_true, if_false] at h
      cases hc : createContent a now with
      | error e => simp [hc] at h
      | ok doc =>
        simp [hc] at h
        obtain ⟨hfs, hpp⟩ := h
        subst hpp
        exact ⟨n, doc, rfl, rfl, by simpa using hex, rfl, hfs.symm⟩

/-- C4: if the target path already exists, `create` fails with the
AlreadyExists error; a second `create` with identical identity fields fails,
and the file written by the first `create` still holds the content the first
call wrote (the error is raised before any write). -/
theorem C4_create_already_exists :
    (∀ (ag now : String) (fs : FS) (a : CreateArgs) (n : String),
      createResolveFileName a = .ok n →
      fsExists fs (joinPath (createTargetDir ag a) n) = true →
      createTool ag now fs a =
        .error ("File already exists: " ++ joinPath (createTargetDir ag a) n)) ∧
    (∀ (ag now now2 : String) (fs : FS) (a : CreateArgs) (fs1 : FS) (p : String),
      createTool ag now fs a = .ok (fs1, p) →
      createTool ag now2 fs1 a = .error ("File already exists: " ++ p) ∧
      ∃ doc, createContent a now = .ok doc ∧ lookupFS fs1 p = some doc) := by
  have part1 : ∀ (ag now : String) (fs : FS) (a : CreateArgs) (n : String),
      createResolveFileName a = .ok n →
      fsExists fs (joinPath (createTargetDir ag a) n) = true →
      createTool ag now fs a =
        .error ("File already exists: " ++ joinPath (createTargetDir ag a) n) := by
    intro ag now fs a n hr hex
    simp [createTool, hr, hex]
  refine ⟨part1, ?_⟩
  intro ag now now2 fs a fs1 p h
  obtain ⟨n, doc, hr, hp, hex, hc, hfs1⟩ := createTool_ok_inv h
  have hlook : lookupFS fs1 p = some doc := by
    rw [hfs1]; exact lookupFS_setFS_self fs p doc
  have hex1 : fsExists fs1 (joinPath (createTargetDir ag a) n) = true := by
    rw [← hp]; simp [fsExists, hlook]
  refine ⟨?_, doc, hc, hlook⟩
  rw [hp]
  exact part1 ag now2 fs1 a n hr hex1

/-- C4 witness: the AlreadyExists error applied at a concrete second `create`
over the filesystem produced by a concrete successful first one. -/
theorem C4_create_already_exists_witness :
    createTool "/r/agelum" "now" [] ⟨.task, "T", "", .pending, none, none, some "n"⟩ =
      .ok ([("/r/agelum/tasks/pending/n.md",
             "---\ntitle: T\ncreated: now\ntype: task\nstate: pending\n---\n\n# T\n\n\n")],
           "/r/agelum/tasks/pending/n.md") ∧
    createTool "/r/agelum" "later" [("/r/agelum/tasks/pending/n.md",
        "---\ntitle: T\ncreated: now\ntype: task\nstate: pending\n---\n\n# T\n\n\n")]
      ⟨.task, "T", "", .pending, none, none, some "n"⟩ =
      .error ("File already exists: " ++ "/r/agelum/tasks/pending/n.md") ∧
    lookupFS [("/r/agelum/tasks/pending/n.md",
        "---\ntitle: T\ncreated: now\ntype: task\nstate: pending\n---\n\n# T\n\n\n")]
      "/r/agelum/tasks/pending/n.md" =
      some "---\ntitle: T\ncreated: now\ntype: task\nstate: pending\n---\n\n# T\n\n\n" := by
  have h1 : createTool "/r/agelum" "now" [] ⟨.task, "T", "", .pending, none, none, some "n"⟩ =
      .ok ([("/r/agelum/tasks/pending/n.md",
             "---\ntitle: T\ncreated: now\ntype: task\nstate: pending\n---\n\n# T\n\n\n")],
           "/r/agelum/tasks/pending/n.md") := by decide
  have h2 := (C4_create_already_exists.2 "/r/agelum" "now" "later" []
    ⟨.task, "T", "", .pending, none, none, some "n"⟩ _ _ h1).1
  exact ⟨h1, h2, by decide⟩

/-- C10: a task `create` with an explicit `fileName` bypasses the derivation
that requires priority and storyPoints: with both omitted the call succeeds
(provided the target is free), and the frontmatter contains exactly the
`title`, `created`, `type` and `state` lines — no priority or storyPoints
lines. -/
theorem C10_create_explicit_filename :
    ∀ (ag now : String) (fs : FS) (title content : String) (state : TaskState) (f : String),
      fsExists fs (joinPath (taskDirPath ag state)
        (ensureMdExtension (sanitizeFileNamePart f))) = false →
      createTool ag now fs ⟨.task, title, content, state, none, none, some f⟩ =
        .ok (setFS fs
              (joinPath (taskDirPath ag state) (ensureMdExtension (sanitizeFileNamePart f)))
              (String.intercalate "\n"
                 ["---", "title: " ++ title, "created: " ++ now, "type: task",
                  "state: " ++ taskStateName state, "---"] ++ "\n" ++
               ("\n# " ++ title ++ "\n\n" ++ content ++ "\n")),
             joinPath (taskDirPath ag state) (ensureMdExtension (sanitizeFileNamePart f))) ∧
      buildFrontmatterLines .task title now (some state) none none =
        .ok ["---", "title: " ++ title, "created: " ++ now, "type: task",
             "state: " ++ taskStateName state] := by
  intro ag now fs title content state f hex
  constructor
  · have hdir : createTargetDir ag ⟨.task, title, content, state, none, none, some f⟩ =
        taskDirPath ag state := by simp [createTargetDir]
    simp [createTool, createResolveFileName, hdir, hex, createContent, buildFrontmatter,
      buildFrontmatterLines, docTypeName]
  · simp [buildFrontmatterLines, docTypeName]

/-- C10 witness: the explicit-fileName `create` applied at a concrete task
with priority and storyPoints omitted, over the empty filesystem. -/
theorem C10_create_explicit_filename_witness :
    (createTool "/r/agelum" "now" [] ⟨.task, "T", "c", .doing, none, none, some "n"⟩).isOk
      = true := by
  rw [(C10_create_explicit_filename "/r/agelum" "now" [] "T" "c" .doing "n" (by decide)).1]
  rfl

theorem taskStateName_length_ne :
    ∀ s1 s2 : TaskState, s1 ≠ s2 →
      (taskStateName s1).length ≠ (taskStateName s2).length := by decide

theorem joinPath_taskDir_ne {ag n : String} {s1 s2 : TaskState} (h : s1 ≠ s2) :
    joinPath (taskDirPath ag s1) n ≠ joinPath (taskDirPath ag s2) n := by
  intro he
  have hl := congrArg String.length he
  simp only [joinPath, taskDirPath, String.length_append] at hl
  exact taskStateName_length_ne s1 s2 h (by omega)

theorem moveTool_ok_inv {ag : String} {fs : FS} {a : MoveArgs} {fs2 : FS} {pf pt : String}
    (h : moveTool ag fs a = .ok (fs2, pf, pt)) :
    a.fromState ≠ a.toState ∧
    ∃ n, moveResolveFileName a = .ok n ∧
      pf = joinPath (taskDirPath ag a.fromState) n ∧
      pt = joinPath (taskDirPath ag a.toState) n ∧
      fsExists fs pf = true ∧ fsExists fs pt = false ∧
      fs2 = renameFS fs pf pt := by
  by_cases he : a.fromState = a.toState
  · simp [moveTool, he] at h
  · refine ⟨he, ?_⟩
    simp only [moveTool, he, if_false] at h
    cases hr : moveResolveFileName a with
    | error e => rw [hr] at h; simp at h
    | ok n =>
      rw [hr] at h
      by_cases hsrc : fsExists fs (joinPath (taskDirPath ag a.fromState) n) = true
      · by_cases htgt : fsExists fs (joinPath (taskDirPath ag a.toState) n) = true
        · simp [hsrc, htgt] at h
        · simp only [hsrc, htgt, Bool.not_true, Bool.false_eq_true, if_false,
            Bool.not_eq_true] at h
          simp at h
          obtain ⟨h1, h2, h3⟩ := h
          subst h2; subst h3
          exact ⟨n, rfl, rfl, rfl, hsrc, by simpa using htgt, h1.symm⟩
      · simp [hsrc] at h

/-- C9: a successful `move` only relocates the file: the content at the
destination equals the content at the source before the move, the source path
no longer exists afterwards, every other path is untouched, and the returned
`{from, to}` paths are the source and target task-directory paths for the
resolved filename. -/
theorem C9_move_frame :
    ∀ (ag : String) (fs : FS) (a : MoveArgs) (fs2 : FS) (pf pt : String),
      moveTool ag fs a = .ok (fs2, pf, pt) →
      (∃ n, moveResolveFileName a = .ok n ∧
        pf = joinPath (taskDirPath ag a.fromState) n ∧
        pt = joinPath (taskDirPath ag a.toState) n) ∧
      pf ≠ pt ∧
      lookupFS fs2 pt = lookupFS fs pf ∧
      lookupFS fs2 pf = none ∧
      (∀ q, q ≠ pf → q ≠ pt → lookupFS fs2 q = lookupFS fs q) := by
  intro ag fs a fs2 pf pt h
  obtain ⟨hne, n, hr, hpf, hpt, hsrc, htgt, hfs2⟩ := moveTool_ok_inv h
  have hne2 : pf ≠ pt := by
    rw [hpf, hpt]; exact joinPath_taskDir_ne hne
  obtain ⟨v, hv⟩ : ∃ v, lookupFS fs pf = some v := by
    simpa [fsExists, Option.isSome_iff_exists] using hsrc
  have hren : fs2 = setFS (eraseFS fs pf) pt v := by
    rw [hfs2, renameFS, hv]
  refine ⟨⟨n, hr, hpf, hpt⟩, hne2, ?_, ?_, ?_⟩
  · rw [hren, lookupFS_setFS_self, hv]
  · rw [hren, lookupFS_setFS_ne _ _ _ _ (Ne.symm hne2), lookupFS_eraseFS_self]
  · intro q hqf hqt
    rw [hren, lookupFS_setFS_ne _ _ _ _ (Ne.symm hqt), lookupFS_eraseFS_ne _ _ _ (Ne.symm hqf)]

/-- C9 witness: the frame conditions applied at a concrete successful move of
"t.md" from pending to doing over a two-file filesystem. -/
theorem C9_move_frame_witness :
    lookupFS (renameFS [("/r/agelum/tasks/pending/t.md", "doc"), ("/r/agelum/other.md", "o")]
        "/r/agelum/tasks/pending/t.md" "/r/agelum/tasks/doing/t.md")
      "/r/agelum/other.md" =
    lookupFS [("/r/agelum/tasks/pending/t.md", "doc"), ("/r/agelum/other.md", "o")]
      "/r/agelum/other.md" := by
  have h := C9_move_frame "/r/agelum"
    [("/r/agelum/tasks/pending/t.md", "doc"), ("/r/agelum/other.md", "o")]
    ⟨"t", none, none, some "t.md", .pending, .doing⟩
    (renameFS [("/r/agelum/tasks/pending/t.md", "doc"), ("/r/agelum/other.md", "o")]
      "/r/agelum/tasks/pending/t.md" "/r/agelum/tasks/doing/t.md")
    "/r/agelum/tasks/pending/t.md" "/r/agelum/tasks/doing/t.md" (by decide)
  exact h.2.2.2.2 "/r/agelum/other.md" (by decide) (by decide)

/-- C5: for a task `get` without a state the three candidates are probed in
the fixed order pending, doing, done and the first existing one is returned
with `exists: true`; if none exists the result is the first (pending)
candidate with `exists: false`; with a state given, or for a non-task type,
there is exactly one candidate, returned with its existence flag. -/
theorem C5_get_probe_order :
    ∀ (ag : String) (fs : FS) (a : GetArgs) (n : String),
      getResolveFileName a = .ok n →
      (a.type = .task → a.state = none →
        getTool ag fs a = .ok (
          if fsExists fs (joinPath (taskDirPath ag .pending) n) = true then
            (joinPath (taskDirPath ag .pending) n, true)
          else if fsExists fs (joinPath (taskDirPath ag .doing) n) = true then
            (joinPath (taskDirPath ag .doing) n, true)
          else if fsExists fs (joinPath (taskDirPath ag .done) n) = true then
            (joinPath (taskDirPath ag .done) n, true)
          else (joinPath (taskDirPath ag .pending) n, false))) ∧
      (∀ s : TaskState, a.type = .task → a.state = some s →
        getTool ag fs a = .ok (joinPath (taskDirPath ag s) n,
          fsExists fs (joinPath (taskDirPath ag s) n))) ∧
      (a.type ≠ .task →
        getTool ag fs a = .ok (joinPath (joinPath ag (nonTaskTypeToDir a.type)) n,
          fsExists fs (joinPath (joinPath ag (nonTaskTypeToDir a.type)) n))) := by
  intro ag fs a n hres
  refine ⟨?_, ?_, ?_⟩
  · intro htype hstate
    by_cases e1 : fsExists fs (joinPath (taskDirPath ag .pending) n) = true
    · simp [getTool, hres, getCandidatePaths, htype, hstate, List.find?, e1]
    · by_cases e2 : fsExists fs (joinPath (taskDirPath ag .doing) n) = true
      · simp [getTool, hres, getCandidatePaths, htype, hstate, List.find?, e1, e2]
      · by_cases e3 : fsExists fs (joinPath (taskDirPath ag .done) n) = true
        · simp [getTool, hres, getCandidatePaths, htype, hstate, List.find?, e1, e2, e3]
        · simp [getTool, hres, getCandidatePaths, htype, hstate, List.find?, e1, e2, e3]
  · intro s htype hstate
    by_cases e : fsExists fs (joinPath (taskDirPath ag s) n) = true
    · simp [getTool, hres, getCandidatePaths, htype, hstate, List.find?, e]
    · simp [getTool, hres, getCandidatePaths, htype, hstate, List.find?, e]
  · intro htype
    by_cases e : fsExists fs (joinPath (joinPath ag (nonTaskTypeToDir a.type)) n) = true
    · simp [getTool, hres, getCandidatePaths, htype, List.find?, e]
    · simp [getTool, hres, getCandidatePaths, htype, List.find?, e]

/-- C5 witness: the probe order applied at a concrete task lookup without a
state, where only the `doing` candidate exists, and a concrete epic lookup. -/
theorem C5_get_probe_order_witness :
    getTool "/r/agelum" [("/r/agelum/tasks/doing/t.md", "x")]
      ⟨.task, "t", none, none, none, some "t.md"⟩ =
      .ok ("/r/agelum/tasks/doing/t.md", true) ∧
    getTool "/r/agelum" [] ⟨.epic, "e", none, none, none, some "e.md"⟩ =
      .ok ("/r/agelum/epics/e.md", false) := by
  constructor
  · have h := (C5_get_probe_order "/r/agelum" [("/r/agelum/tasks/doing/t.md", "x")]
      ⟨.task, "t", none, none, none, some "t.md"⟩ "t.md" (by decide)).1 rfl rfl
    rw [h]; decide
  · have h := (C5_get_probe_order "/r/agelum" []
      ⟨.epic, "e", none, none, none, some "e.md"⟩ "e.md" (by decide)).2.2 (by decide)
    rw [h]; decide

theorem findRepoRootLoop_eq (ex : List String → Bool) :
    ∀ (fuel : Nat) (cur : List String),
      findRepoRootLoop ex fuel cur =
        (rootCandidates fuel cur).find? (fun c => ex (c ++ [".git"])) := by
  intro fuel
  induction fuel with
  | zero => intro cur; simp [findRepoRootLoop, rootCandidates]
  | succ fuel ih =>
    intro cur
    by_cases hg : ex (cur ++ [".git"]) = true
    · simp [findRepoRootLoop, rootCandidates, hg, List.find?]
    · by_cases hp : cur.dropLast = cur
      · simp [findRepoRootLoop, rootCandidates, hg, hp, List.find?]
      · simp [findRepoRootLoop, rootCandidates, hg, hp, List.find?, ih]

/-- C7: root resolution walks upward from the working directory probing each
ancestor for a `.git` entry, bounded to depth 10; when the walk fails it
returns the fallback hint exactly when the hint was provided and exists on
disk (no `.git` marker required), and otherwise fails — it never returns any
other directory.  Stated as equality with `resolveRootSpec`, the direct
transcription of the specified algorithm. -/
theorem C7_findRepoRoot_spec :
    ∀ (ex : List String → Bool) (cwd : List String) (hint : Option (List String)),
      findRepoRootPath ex cwd hint = resolveRootSpec ex cwd hint := by
  intro ex cwd hint
  simp [findRepoRootPath, resolveRootSpec, findRepoRootLoop_eq]

theorem collapse_mem : ∀ (f : Bool) (l : List Char) (c : Char),
    c ∈ collapseWsAux f l → c = ' ' ∨ c ∈ l := by
  intro f l
  induction l generalizing f with
  | nil => intro c h; simp [collapseWsAux] at h
  | cons a t ih =>
    intro c h
    by_cases ha : isJsWs a = true
    · cases f with
      | true =>
        simp only [collapseWsAux, ha, if_true] at h
        rcases ih true c h with h2 | h2
        · exact .inl h2
        · exact .inr (List.mem_cons_of_mem a h2)
      | false =>
        simp only [collapseWsAux, ha, if_true] at h
        rcases List.mem_cons.mp h with h2 | h2
        · exact .inl h2
        · rcases ih true c h2 with h3 | h3
          · exact .inl h3
          · exact .inr (List.mem_cons_of_mem a h3)
    · simp only [collapseWsAux, ha, Bool.false_eq_true, if_false] at h
      rcases List.mem_cons.mp h with h2 | h2
      · exact .inr (h2 ▸ List.mem_cons_self a t)
      · rcases ih false c h2 with h3 | h3
        · exact .inl h3
        · exact .inr (List.mem_cons_of_mem a h3)

theorem collapse_ws_space : ∀ (f : Bool) (l : List Char) (c : Char),
    c ∈ collapseWsAux f l → isJsWs c = true → c = ' ' := by
  intro f l
  induction l generalizing f with
  | nil => intro c h; simp [collapseWsAux] at h
  | cons a t ih =>
    intro c h hws
    by_cases ha : isJsWs a = true
    · cases f with
      | true =>
        simp only [collapseWsAux, ha, if_true] at h
        exact ih true c h hws
      | false =>
        simp only [collapseWsAux, ha, if_true] at h
        rcases List.mem_cons.mp h with h2 | h2
        · exact h2
        · exact ih true c h2 hws
    · simp only [collapseWsAux, ha, Bool.false_eq_true, if_false] at h
      rcases List.mem_cons.mp h with h2 | h2
      · subst h2; exact absurd hws (by simpa using ha)
      · exact ih false c h2 hws

theorem collapse_head_true : ∀ (l : List Char) (c : Char),
    (collapseWsAux true l).head? = some c → c ≠ ' ' := by
  intro l
  induction l with
  | nil => intro c h; simp [collapseWsAux] at h
  | cons a t ih =>
    intro c h
    by_cases ha : isJsWs a = true
    · simp only [collapseWsAux, ha, if_true] at h
      exact ih c h
    · simp only [collapseWsAux, ha, Bool.false_eq_true, if_false, List.head?_cons,
        Option.some.injEq] at h
      subst h
      intro hc
      exact absurd (hc ▸ ha) (by decide)

theorem collapse_chain : ∀ (f : Bool) (l : List Char),
    List.Chain' (fun a b => ¬(a = ' ' ∧ b = ' ')) (collapseWsAux f l) := by
  intro f l
  induction l generalizing f with
  | nil => simp [collapseWsAux]
  | cons a t ih =>
    by_cases ha : isJsWs a = true
    · cases f with
      | true => simpa [collapseWsAux, ha] using ih true
      | false =>
        simp only [collapseWsAux, ha, if_true, Bool.false_eq_true, if_false]
        rw [List.chain'_cons']
        refine ⟨?_, ih true⟩
        intro b hb hab
        exact collapse_head_true t b (Option.mem_def.mp hb) hab.2
    · simp only [collapseWsAux, ha, Bool.false_eq_true, if_false]
      rw [List.chain'_cons']
      refine ⟨?_, ih false⟩
      intro b hb hab
      exact absurd (hab.1 ▸ ha) (by decide)

theorem collapse_eq_self : ∀ (f : Bool) (l : List Char),
    (∀ c ∈ l, isJsWs c = true → c = ' ') →
    List.Chain' (fun a b => ¬(a = ' ' ∧ b = ' ')) l →
    (f = true → ∀ c, l.head? = some c → c ≠ ' ') →
    collapseWsAux f l = l := by
  intro f l
  induction l generalizing f with
  | nil => intro _ _ _; simp [collapseWsAux]
  | cons a t ih =>
    intro hws hch hh
    rw [List.chain'_cons'] at hch
    by_cases ha : isJsWs a = true
    · have ha2 : a = ' ' := hws a (List.mem_cons_self a t) ha
      cases f with
      | true => exact absurd ha2 (hh rfl a rfl)
      | false =>
        simp only [collapseWsAux, ha, if_true, Bool.false_eq_true, if_false]
        rw [ha2]
        congr 1
        refine ih true (fun c hc => hws c (List.mem_cons_of_mem a hc)) hch.2 ?_
        intro _ c hc hc2
        exact (hch.1 c (Option.mem_def.mpr hc)) ⟨ha2, hc2⟩
    · simp only [collapseWsAux, ha, Bool.false_eq_true, if_false]
      congr 1
      refine ih false (fun c hc => hws c (List.mem_cons_of_mem a hc)) hch.2 (by simp)

theorem dropWhile_head_not {p : Char → Bool} : ∀ (l : List Char) (c : Char),
    (l.dropWhile p).head? = some c → p c = false := by
  intro l
  induction l with
  | nil => intro c h; simp [List.dropWhile] at h
  | cons a t ih =>
    intro c h
    by_cases hp : p a = true
    · rw [List.dropWhile_cons, if_pos hp] at h
      exact ih c h
    · rw [List.dropWhile_cons, if_neg hp] at h
      simp only [List.head?_cons, Option.some.injEq] at h
      subst h
      simpa using hp

theorem dropWhile_eq_self_of_head {p : Char → Bool} (l : List Char)
    (h : ∀ c, l.head? = some c → p c = false) : l.dropWhile p = l := by
  cases l with
  | nil => rfl
  | cons a t =>
    have := h a rfl
    simp [List.dropWhile_cons, this]

theorem trim_prefix (l : List Char) : jsTrimChars l <+: l.dropWhile isJsWs := by
  have h1 : (l.dropWhile isJsWs).reverse.dropWhile isJsWs <:+ (l.dropWhile isJsWs).reverse :=
    List.dropWhile_suffix _
  have h2 := List.reverse_prefix.mpr h1
  simpa [jsTrimChars] using h2

theorem trim_mid (l : List Char) : jsTrimChars l <:+: l := by
  obtain ⟨t, ht⟩ := trim_prefix l
  obtain ⟨s, hs⟩ := List.dropWhile_suffix (l := l) isJsWs
  exact ⟨s, t, by rw [List.append_assoc, ht, hs]⟩

theorem trim_mem (l : List Char) (c : Char) (h : c ∈ jsTrimChars l) : c ∈ l :=
  (trim_mid l).subset h

theorem trim_head_not (l : List Char) (c : Char) (h : (jsTrimChars l).head? = some c) :
    isJsWs c = false := by
  obtain ⟨t, ht⟩ := trim_prefix l
  have hne : jsTrimChars l ≠ [] := by
    intro h0; rw [h0] at h; simp at h
  have hh : (l.dropWhile isJsWs).head? = some c := by
    rw [← ht]
    cases hJ : jsTrimChars l with
    | nil => exact absurd hJ hne
    | cons x xs =>
      rw [hJ] at h
      simpa using h
  exact dropWhile_head_not l c hh

theorem trim_getLast_not (l : List Char) (c : Char) (h : (jsTrimChars l).getLast? = some c) :
    isJsWs c = false := by
  rw [jsTrimChars, List.getLast?_reverse] at h
  exact dropWhile_head_not _ c h

theorem trim_eq_self (l : List Char)
    (h1 : ∀ c, l.head? = some c → isJsWs c = false)
    (h2 : ∀ c, l.getLast? = some c → isJsWs c = false) :
    jsTrimChars l = l := by
  have hd : l.dropWhile isJsWs = l := dropWhile_eq_self_of_head l h1
  rw [jsTrimChars, hd]
  have hd2 : l.reverse.dropWhile isJsWs = l.reverse := by
    apply dropWhile_eq_self_of_head
    intro c hc
    rw [List.head?_reverse] at hc
    exact h2 c hc
  rw [hd2, List.reverse_reverse]

theorem map_eq_self {f : Char → Char} : ∀ (l : List Char), (∀ c ∈ l, f c = c) → l.map f = l := by
  intro l
  induction l with
  | nil => intro _; rfl
  | cons a t ih =>
    intro h
    simp only [List.map_cons, h a (List.mem_cons_self a t),
      ih (fun c hc => h c (List.mem_cons_of_mem a hc))]

theorem mapSepChar_not_sep (c : Char) : isSepChar (mapSepChar c) = false := by
  by_cases h : isSepChar c = true
  · simp only [mapSepChar, h, if_true]; decide
  · have h2 : isSepChar c = false := by simpa using h
    simp [mapSepChar, h2]

theorem sanitize_mem (l : List Char) (c : Char) (hc : c ∈ sanitizeChars l) :
    isSepChar c = false ∧ isReservedChar c = false ∧ (isJsWs c = true → c = ' ') := by
  have h1 : c ∈ collapseWsAux false ((l.map mapSepChar).filter (fun x => !isReservedChar x)) :=
    trim_mem _ c hc
  have hws : isJsWs c = true → c = ' ' := fun hw => collapse_ws_space false _ c h1 hw
  rcases collapse_mem false _ c h1 with h2 | h2
  · subst h2; exact ⟨by decide, by decide, fun _ => rfl⟩
  · have hres : (!isReservedChar c) = true := (List.mem_filter.mp h2).2
    have hmap : c ∈ l.map mapSepChar := (List.mem_filter.mp h2).1
    obtain ⟨c0, _, hc0⟩ := List.mem_map.mp hmap
    have hsep : isSepChar c = false := hc0 ▸ mapSepChar_not_sep c0
    exact ⟨hsep, by simpa using hres, hws⟩

theorem sanitize_chain (l : List Char) :
    List.Chain' (fun a b => ¬(a = ' ' ∧ b = ' ')) (sanitizeChars l) :=
  List.Chain'.infix
    (collapse_chain false ((l.map mapSepChar).filter (fun x => !isReservedChar x)))
    (trim_mid _)

theorem sanitize_head_ne (l : List Char) (c : Char) (h : (sanitizeChars l).head? = some c) :
    c ≠ ' ' := by
  have hw := trim_head_not _ c h
  intro hc
  rw [hc] at hw
  exact absurd hw (by decide)

theorem sanitize_getLast_ne (l : List Char) (c : Char)
    (h : (sanitizeChars l).getLast? = some c) : c ≠ ' ' := by
  have hw := trim_getLast_not _ c h
  intro hc
  rw [hc] at hw
  exact absurd hw (by decide)

theorem sanitizeChars_fixed_of (l : List Char)
    (h1 : ∀ c ∈ l, isSepChar c = false ∧ isReservedChar c = false ∧ (isJsWs c = true → c = ' '))
    (h2 : List.Chain' (fun a b => ¬(a = ' ' ∧ b = ' ')) l)
    (h3 : ∀ c, l.head? = some c → c ≠ ' ')
    (h4 : ∀ c, l.getLast? = some c → c ≠ ' ') :
    sanitizeChars l = l := by
  have hmap : l.map mapSepChar = l :=
    map_eq_self l (fun c hc => by simp [mapSepChar, (h1 c hc).1])
  have hfil : (l.map mapSepChar).filter (fun x => !isReservedChar x) = l := by
    rw [hmap]
    exact List.filter_eq_self.mpr (fun c hc => by simp [(h1 c hc).2.1])
  have hcol : collapseWsAux false ((l.map mapSepChar).filter (fun x => !isReservedChar x)) = l := by
    rw [hfil]
    exact collapse_eq_self false l (fun c hc => (h1 c hc).2.2) h2 (by simp)
  have hhead : ∀ c, l.head? = some c → isJsWs c = false := by
    intro c hc
    rcases (h1 c (List.mem_of_mem_head? hc)).2.2 with h5
    by_cases hw : isJsWs c = true
    · exact absurd (h5 hw) (h3 c hc)
    · simpa using hw
  have hlast : ∀ c, l.getLast? = some c → isJsWs c = false := by
    intro c hc
    have hmem : c ∈ l := by
      rw [← List.head?_reverse] at hc
      exact List.mem_reverse.mp (List.mem_of_mem_head? hc)
    by_cases hw : isJsWs c = true
    · exact absurd ((h1 c hmem).2.2 hw) (h4 c hc)
    · simpa using hw
  rw [sanitizeChars, hcol]
  exact trim_eq_self l hhead hlast

theorem natToDigits_mem_digits : ∀ (fuel n : Nat), n < fuel →
    ∀ c ∈ natToDigits fuel n, c ∈ ['0','1','2','3','4','5','6','7','8','9'] := by
  intro fuel
  induction fuel with
  | zero => intro n h; omega
  | succ fuel ih =>
    intro n h c hc
    by_cases h10 : n < 10
    · simp only [natToDigits, h10, if_true, List.mem_singleton] at hc
      subst hc
      interval_cases n <;> decide
    · have hlt : n / 10 < n := Nat.div_lt_self (by omega) (by omega)
      simp only [natToDigits, h10, if_false] at hc
      rcases List.mem_append.mp hc with h2 | h2
      · exact ih (n / 10) (by omega) c h2
      · simp only [List.mem_singleton] at h2
        subst h2
        have hm : n % 10 < 10 := Nat.mod_lt n (by omega)
        generalize n % 10 = m at hm ⊢
        interval_cases m <;> decide

theorem digit_plain {c : Char} (h : c ∈ ['0','1','2','3','4','5','6','7','8','9']) :
    isSepChar c = false ∧ isReservedChar c = false ∧ isJsWs c = false := by
  fin_cases h <;> exact ⟨by decide, by decide, by decide⟩

theorem natToString_plain (n : Nat) :
    ∀ c ∈ (natToString n).data,
      isSepChar c = false ∧ isReservedChar c = false ∧ isJsWs c = false :=
  fun c hc => digit_plain (natToDigits_mem_digits (n + 1) n (Nat.lt_succ_self n) c hc)

theorem intToString_plain (i : Int) :
    ∀ c ∈ (intToString i).data,
      isSepChar c = false ∧ isReservedChar c = false ∧ isJsWs c = false := by
  intro c hc
  rw [intToString] at hc
  by_cases h : i < 0
  · rw [if_pos h, String.data_append] at hc
    rcases List.mem_append.mp hc with h2 | h2
    · have h3 : c ∈ ['-'] := h2
      fin_cases h3
      exact ⟨by decide, by decide, by decide⟩
    · exact natToString_plain _ c h2
  · rw [if_neg h] at hc
    exact natToString_plain _ c hc

theorem jsNumToString_plain (v : JSNum) :
    ∀ c ∈ (jsNumToString v).data,
      isSepChar c = false ∧ isReservedChar c = false ∧ isJsWs c = false := by
  intro c hc
  cases v with
  | nan =>
    have h3 : c ∈ ['N', 'a', 'N'] := hc
    fin_cases h3 <;> exact ⟨by decide, by decide, by decide⟩
  | posInf =>
    have h3 : c ∈ ['I', 'n', 'f', 'i', 'n', 'i', 't', 'y'] := hc
    fin_cases h3 <;> exact ⟨by decide, by decide, by decide⟩
  | negInf =>
    have h3 : c ∈ ['-', 'I', 'n', 'f', 'i', 'n', 'i', 't', 'y'] := hc
    fin_cases h3 <;> exact ⟨by decide, by decide, by decide⟩
  | fin q =>
    rw [jsNumToString] at hc
    by_cases hden : q.den = 1
    · rw [if_pos hden] at hc
      exact intToString_plain _ c hc
    · rw [if_neg hden, String.data_append, String.data_append] at hc
      rcases List.mem_append.mp hc with h2 | h2
      · rcases List.mem_append.mp h2 with h3 | h3
        · exact intToString_plain _ c h3
        · have h4 : c ∈ ['.'] := h3
          fin_cases h4
          exact ⟨by decide, by decide, by decide⟩
      · exact natToString_plain _ c h2

theorem formatStoryPoints_plain (v : JSNum) :
    ∀ c ∈ (formatStoryPoints v).data,
      isSepChar c = false ∧ isReservedChar c = false ∧ isJsWs c = false := by
  intro c hc
  rw [formatStoryPoints] at hc
  by_cases h : jsIsInteger v = true
  · rw [if_pos h] at hc; exact jsNumToString_plain v c hc
  · rw [if_neg h] at hc; exact jsNumToString_plain v c hc

theorem natToDigits_ne_nil (fuel n : Nat) : natToDigits (fuel + 1) n ≠ [] := by
  by_cases h10 : n < 10 <;> simp [natToDigits, h10]

theorem formatPriority_plain {v : JSNum} {ps : String} (h : formatPriority v = .ok ps) :
    (∀ c ∈ ps.data, isSepChar c = false ∧ isReservedChar c = false ∧ isJsWs c = false) ∧
    ps.data ≠ [] := by
  cases v with
  | nan => simp [formatPriority] at h
  | posInf => simp [formatPriority] at h
  | negInf => simp [formatPriority] at h
  | fin q =>
    obtain ⟨hq, hps⟩ := formatPriority_fin_ok_inv h
    subst hps
    constructor
    · intro c hc
      have hc2 : c ∈ List.replicate (2 - (natToString (jsTruncRat q).toNat).data.length) '0' ++
          (natToString (jsTruncRat q).toNat).data := hc
      rcases List.mem_append.mp hc2 with h2 | h2
      · have h3 : c = '0' := List.eq_of_mem_replicate h2
        subst h3
        exact ⟨by decide, by decide, by decide⟩
      · exact natToString_plain _ c h2
    · show List.replicate _ '0' ++ (natToDigits _ _) ≠ []
      simp [natToDigits_ne_nil]

theorem chain_of_no_space : ∀ (l : List Char), (∀ c ∈ l, c ≠ ' ') →
    List.Chain' (fun a b => ¬(a = ' ' ∧ b = ' ')) l := by
  intro l
  induction l with
  | nil => intro _; simp
  | cons a t ih =>
    intro h
    rw [List.chain'_cons']
    exact ⟨fun b _ hab => h a (List.mem_cons_self a t) hab.1,
           ih (fun c hc => h c (List.mem_cons_of_mem a hc))⟩

theorem chain_append_of_boundary {A B : List Char}
    (hA : List.Chain' (fun a b => ¬(a = ' ' ∧ b = ' ')) A)
    (hB : List.Chain' (fun a b => ¬(a = ' ' ∧ b = ' ')) B)
    (hbd : (∀ c, A.getLast? = some c → c ≠ ' ') ∨ (∀ c, B.head? = some c → c ≠ ' ')) :
    List.Chain' (fun a b => ¬(a = ' ' ∧ b = ' ')) (A ++ B) := by
  rw [List.chain'_append]
  refine ⟨hA, hB, ?_⟩
  intro x hx y hy hxy
  rcases hbd with h | h
  · exact h x (Option.mem_def.mp hx) hxy.1
  · exact h y (Option.mem_def.mp hy) hxy.2

theorem head?_append_left {l₁ l₂ : List Char} (h : l₁ ≠ []) :
    (l₁ ++ l₂).head? = l₁.head? := by
  cases l₁ with
  | nil => exact absurd rfl h
  | cons a t => rfl

theorem plain_ne_space {c : Char} (h : isJsWs c = false) : c ≠ ' ' := by
  intro hc
  rw [hc] at h
  exact absurd h (by decide)

theorem getLast_mem {l : List Char} {c : Char} (h : l.getLast? = some c) : c ∈ l := by
  rw [← List.head?_reverse] at h
  exact List.mem_reverse.mp (List.mem_of_mem_head? h)

theorem data_ne_nil_of_ne_empty {s : String} (h : s ≠ "") : s.data ≠ [] := by
  intro h0
  apply h
  cases s with
  | mk d =>
    simp only at h0
    subst h0
    rfl

theorem sanitizeFileNamePart_eq_self_of_data {n : String}
    (h : sanitizeChars n.data = n.data) : sanitizeFileNamePart n = n := by
  rw [sanitizeFileNamePart, h]

theorem chain_tail_part (S : List Char)
    (hS : ∀ c ∈ S, isSepChar c = false ∧ isReservedChar c = false ∧ isJsWs c = false) :
    List.Chain' (fun a b => ¬(a = ' ' ∧ b = ' '))
      ([' ', '('] ++ (S ++ [')', '.', 'm', 'd'])) := by
  show List.Chain' _ (' ' :: ('(' :: (S ++ [')', '.', 'm', 'd'])))
  rw [List.chain'_cons']
  constructor
  · intro b hb hab
    simp at hb
    exact absurd (hb ▸ hab.2) (by decide)
  rw [List.chain'_cons']
  constructor
  · intro b _ hab
    exact absurd hab.1 (by decide)
  apply chain_of_no_space
  intro c hc
  rcases List.mem_append.mp hc with h1 | h1
  · exact plain_ne_space (hS c h1).2.2
  · fin_cases h1 <;> decide

theorem mem_tail_part {c : Char} (S : List Char)
    (hS : ∀ c ∈ S, isSepChar c = false ∧ isReservedChar c = false ∧ isJsWs c = false)
    (hc : c ∈ [' ', '('] ++ (S ++ [')', '.', 'm', 'd'])) :
    isSepChar c = false ∧ isReservedChar c = false ∧ (isJsWs c = true → c = ' ') := by
  rcases List.mem_append.mp hc with h1 | h1
  · fin_cases h1
    · exact ⟨by decide, by decide, fun _ => rfl⟩
    · exact ⟨by decide, by decide, by decide⟩
  · rcases List.mem_append.mp h1 with h2 | h2
    · rcases hS c h2 with ⟨a1, a2, a3⟩
      exact ⟨a1, a2, fun hw => absurd (a3 ▸ hw) (by simp [a3])⟩
    · fin_cases h2 <;> exact ⟨by decide, by decide, by decide⟩

theorem sanitizeChars_body_name (l0 S : List Char)
    (hTne : sanitizeChars l0 ≠ [])
    (hS : ∀ c ∈ S, isSepChar c = false ∧ isReservedChar c = false ∧ isJsWs c = false) :
    sanitizeChars (sanitizeChars l0 ++ ([' ', '('] ++ (S ++ [')', '.', 'm', 'd']))) =
      sanitizeChars l0 ++ ([' ', '('] ++ (S ++ [')', '.', 'm', 'd'])) := by
  apply sanitizeChars_fixed_of
  · intro c hc
    rcases List.mem_append.mp hc with h1 | h1
    · exact sanitize_mem l0 c h1
    · exact mem_tail_part S hS h1
  · refine chain_append_of_boundary (sanitize_chain l0) (chain_tail_part S hS) (.inl ?_)
    intro c hc
    exact sanitize_getLast_ne l0 c hc
  · intro c hc
    rw [head?_append_left hTne] at hc
    exact sanitize_head_ne l0 c hc
  · intro c hc
    rw [List.getLast?_append_of_ne_nil (sanitizeChars l0) (by simp),
        List.getLast?_append_of_ne_nil [' ', '('] (by simp),
        List.getLast?_append_of_ne_nil S (by simp)] at hc
    simp at hc
    subst hc
    decide

theorem sanitizeChars_task_name (l0 P S : List Char)
    (hTne : sanitizeChars l0 ≠ [])
    (hP : ∀ c ∈ P, isSepChar c = false ∧ isReservedChar c = false ∧ isJsWs c = false)
    (hPne : P ≠ [])
    (hS : ∀ c ∈ S, isSepChar c = false ∧ isReservedChar c = false ∧ isJsWs c = false) :
    sanitizeChars
        (P ++ ([' '] ++ (sanitizeChars l0 ++ ([' ', '('] ++ (S ++ [')', '.', 'm', 'd']))))) =
      P ++ ([' '] ++ (sanitizeChars l0 ++ ([' ', '('] ++ (S ++ [')', '.', 'm', 'd'])))) := by
  apply sanitizeChars_fixed_of
  · intro c hc
    rcases List.mem_append.mp hc with h1 | h1
    · rcases hP c h1 with ⟨a1, a2, a3⟩
      exact ⟨a1, a2, fun hw => absurd (a3 ▸ hw) (by simp [a3])⟩
    rcases List.mem_append.mp h1 with h2 | h2
    · fin_cases h2
      exact ⟨by decide, by decide, fun _ => rfl⟩
    rcases List.mem_append.mp h2 with h3 | h3
    · exact sanitize_mem l0 c h3
    · exact mem_tail_part S hS h3
  · refine chain_append_of_boundary ?_ ?_ (.inl ?_)
    · exact chain_of_no_space P (fun c hc => plain_ne_space (hP c hc).2.2)
    · show List.Chain' _ (' ' :: (sanitizeChars l0 ++ ([' ', '('] ++ (S ++ [')', '.', 'm', 'd']))))
      rw [List.chain'_cons']
      constructor
      · intro b hb hab
        rw [head?_append_left hTne] at hb
        exact sanitize_head_ne l0 b (Option.mem_def.mp hb) hab.2
      · refine chain_append_of_boundary (sanitize_chain l0) (chain_tail_part S hS) (.inl ?_)
        intro c hc
        exact sanitize_getLast_ne l0 c hc
    · intro c hc
      exact plain_ne_space (hP c (getLast_mem hc)).2.2
  · intro c hc
    rw [head?_append_left hPne] at hc
    exact plain_ne_space (hP c (List.mem_of_mem_head? hc)).2.2
  · intro c hc
    rw [List.getLast?_append_of_ne_nil P (by simp),
        List.getLast?_append_of_ne_nil [' '] (by simp),
        List.getLast?_append_of_ne_nil (sanitizeChars l0) (by simp),
        List.getLast?_append_of_ne_nil [' ', '('] (by simp),
        List.getLast?_append_of_ne_nil S (by simp)] at hc
    simp at hc
    subst hc
    decide

theorem sanitizeChars_plain_name (l0 : List Char) (hTne : sanitizeChars l0 ≠ []) :
    sanitizeChars (sanitizeChars l0 ++ ['.', 'm', 'd']) =
      sanitizeChars l0 ++ ['.', 'm', 'd'] := by
  apply sanitizeChars_fixed_of
  · intro c hc
    rcases List.mem_append.mp hc with h1 | h1
    · exact sanitize_mem l0 c h1
    · fin_cases h1 <;> exact ⟨by decide, by decide, by decide⟩
  · refine chain_append_of_boundary (sanitize_chain l0) ?_ (.inl ?_)
    · exact chain_of_no_space _ (fun c hc => by fin_cases hc <;> decide)
    · intro c hc
      exact sanitize_getLast_ne l0 c hc
  · intro c hc
    rw [head?_append_left hTne] at hc
    exact sanitize_head_ne l0 c hc
  · intro c hc
    rw [List.getLast?_append_of_ne_nil (sanitizeChars l0) (by simp)] at hc
    simp at hc
    subst hc
    decide

theorem buildFileName_nontask_ok {type : DocumentType} {title : String} {p sp : Option JSNum}
    {n : String} (htask : type ≠ .task) (h : buildFileName type title p sp = .ok n) :
    sanitizeFileNamePart title ≠ "" ∧
    ((∃ spv, sp = some spv ∧
        n = sanitizeFileNamePart title ++ " (" ++ formatStoryPoints spv ++ ").md") ∨
      (sp = none ∧ n = sanitizeFileNamePart title ++ ".md")) := by
  by_cases ht : sanitizeFileNamePart title = ""
  · simp [buildFileName, ht] at h
  · cases sp with
    | some spv =>
      simp [buildFileName, ht, htask] at h
      exact ⟨ht, .inl ⟨spv, rfl, h.symm⟩⟩
    | none =>
      simp [buildFileName, ht, htask] at h
      exact ⟨ht, .inr ⟨rfl, h.symm⟩⟩

theorem sanitize_buildFileName {type : DocumentType} {title : String} {p sp : Option JSNum}
    {n : String} (h : buildFileName type title p sp = .ok n) :
    sanitizeFileNamePart n = n := by
  apply sanitizeFileNamePart_eq_self_of_data
  by_cases htask : type = .task
  · subst htask
    cases p with
    | none =>
      by_cases ht : sanitizeFileNamePart title = "" <;> simp [buildFileName, ht] at h
    | some pv =>
      cases sp with
      | none =>
        by_cases ht : sanitizeFileNamePart title = "" <;> simp [buildFileName, ht] at h
      | some spv =>
        obtain ⟨ps, hps, ht, hn⟩ := buildFileName_task_ok h
        obtain ⟨hplain, hpsne⟩ := formatPriority_plain hps
        subst hn
        have hdata :
            (ps ++ " " ++ sanitizeFileNamePart title ++ " (" ++
              formatStoryPoints spv ++ ").md").data =
            ps.data ++ ([' '] ++ (sanitizeChars title.data ++
              ([' ', '('] ++ ((formatStoryPoints spv).data ++ [')', '.', 'm', 'd'])))) := by
          simp only [String.data_append, List.append_assoc]
          rfl
        rw [hdata]
        exact sanitizeChars_task_name title.data ps.data (formatStoryPoints spv).data
          (data_ne_nil_of_ne_empty ht) hplain hpsne (formatStoryPoints_plain spv)
  · obtain ⟨ht, hsh⟩ := buildFileName_nontask_ok htask h
    rcases hsh with ⟨spv, hsp, hn⟩ | ⟨hsp, hn⟩
    · subst hn
      have hdata :
          (sanitizeFileNamePart title ++ " (" ++ formatStoryPoints spv ++ ").md").data =
          sanitizeChars title.data ++
            ([' ', '('] ++ ((formatStoryPoints spv).data ++ [')', '.', 'm', 'd'])) := by
        simp only [String.data_append, List.append_assoc]
        rfl
      rw [hdata]
      exact sanitizeChars_body_name title.data (formatStoryPoints spv).data
        (data_ne_nil_of_ne_empty ht) (formatStoryPoints_plain spv)
    · subst hn
      have hdata :
          (sanitizeFileNamePart title ++ ".md").data =
          sanitizeChars title.data ++ ['.', 'm', 'd'] := by
        simp only [String.data_append]
        rfl
      rw [hdata]
      exact sanitizeChars_plain_name title.data (data_ne_nil_of_ne_empty ht)

/-- C2 counterexample: with the explicit fileName "a:b", `create` sanitizes
(dropping the reserved ':') and resolves "ab.md", while `move` only trims and
appends ".md", resolving "a:b.md" — the two resolutions differ, so move's
resolution is NOT identical to create's on explicit fileNames. -/
theorem C2_counterexample :
    createResolveFileName ⟨.task, "t", "", .pending, none, none, some "a:b"⟩ = .ok "ab.md" ∧
    moveResolveFileName ⟨"t", none, none, some "a:b", .pending, .doing⟩ = .ok "a:b.md" ∧
    ("ab.md" : String) ≠ "a:b.md" := by decide

/-- C2 (amended): when no explicit fileName is supplied (and a title is),
`move` resolves the source filename exactly as `create` does from
title/priority/storyPoints; but an explicit non-empty fileName is used by
`move` with only trimming and `.md`-appending (`ensureMdExtension`) — without
the `sanitizeFileNamePart` step `create` applies — so explicit fileNames
containing characters the sanitizer would alter resolve differently (see
`C2_counterexample`). -/
theorem C2_move_create_resolution :
    (∀ (a : MoveArgs) (c : CreateArgs),
      c.type = .task → c.title = a.title → c.priority = a.priority →
      c.storyPoints = a.storyPoints → c.fileName = none → a.fileName = none →
      a.title ≠ "" →
      moveResolveFileName a = createResolveFileName c) ∧
    (∀ (a : MoveArgs) (f : String), a.fileName = some f → f ≠ "" →
      moveResolveFileName a = .ok (ensureMdExtension f)) := by
  constructor
  · intro a c htype htitle hprio hsp hcf haf htitle0
    rw [moveResolveFileName, haf, moveDeriveFileName, if_neg htitle0]
    simp only [createResolveFileName, hcf, htype, htitle, hprio, hsp]
    cases hb : buildFileName .task a.title a.priority a.storyPoints with
    | error e => simp [hb]
    | ok nb =>
      simp only [hb]
      rw [sanitize_buildFileName hb]
  · intro a f haf hf
    simp [moveResolveFileName, haf, hf]

/-- C2 witness: the derived-filename agreement applied at a concrete task
identity, and the explicit-fileName rule applied at fileName "x". -/
theorem C2_move_create_resolution_witness :
    moveResolveFileName ⟨"T", some (.fin 3), some (.fin 5), none, .pending, .doing⟩ =
      createResolveFileName ⟨.task, "T", "", .pending, some (.fin 3), some (.fin 5), none⟩ ∧
    moveResolveFileName ⟨"T", none, none, some "x", .pending, .doing⟩ =
      .ok (ensureMdExtension "x") :=
  ⟨C2_move_create_resolution.1 ⟨"T", some (.fin 3), some (.fin 5), none, .pending, .doing⟩
      ⟨.task, "T", "", .pending, some (.fin 3), some (.fin 5), none⟩
      rfl rfl rfl rfl rfl rfl (by decide),
   C2_move_create_resolution.2 ⟨"T", none, none, some "x", .pending, .doing⟩ "x" rfl (by decide)⟩

theorem buildFileName_ok_title_ne {type : DocumentType} {title : String} {p sp : Option JSNum}
    {nb : String} (h : buildFileName type title p sp = .ok nb) :
    sanitizeFileNamePart title ≠ "" := by
  by_cases ht : sanitizeFileNamePart title = ""
  · simp [buildFileName, ht] at h
  · exact ht

theorem buildFileName_ok_ne_empty {type : DocumentType} {title : String} {p sp : Option JSNum}
    {nb : String} (h : buildFileName type title p sp = .ok nb) : nb ≠ "" := by
  by_cases htask : type = .task
  · subst htask
    cases p with
    | none =>
      by_cases ht : sanitizeFileNamePart title = "" <;> simp [buildFileName, ht] at h
    | some pv =>
      cases sp with
      | none =>
        by_cases ht : sanitizeFileNamePart title = "" <;> simp [buildFileName, ht] at h
      | some spv =>
        obtain ⟨ps, hps, ht, hn⟩ := buildFileName_task_ok h
        obtain ⟨-, hpsne⟩ := formatPriority_plain hps
        subst hn
        intro h0
        have hd := congrArg String.data h0
        simp only [String.data_append, show ("" : String).data = [] from rfl,
          List.append_eq_nil] at hd
        exact hpsne hd.1.1.1.1.1
  · obtain ⟨ht, hsh⟩ := buildFileName_nontask_ok htask h
    rcases hsh with ⟨spv, hsp, hn⟩ | ⟨hsp, hn⟩ <;> subst hn <;> intro h0 <;>
      (have hd := congrArg String.data h0
       simp only [String.data_append, show ("" : String).data = [] from rfl,
         List.append_eq_nil] at hd)
    · exact data_ne_nil_of_ne_empty ht hd.1.1.1
    · exact data_ne_nil_of_ne_empty ht hd.1

theorem getTool_first (ag : String) (fs : FS) (a : GetArgs) (n p : String) (rest : List String)
    (hres : getResolveFileName a = .ok n)
    (hcand : getCandidatePaths ag a n = p :: rest)
    (hex : fsExists fs p = true) :
    getTool ag fs a = .ok (p, true) := by
  simp [getTool, hres, hcand, List.find?, hex]

/-- C6 counterexample: `create` with the explicit fileName "a:b" sanitizes and
writes ".../pending/ab.md", but a `get` with the identical identity fields
probes the unsanitized ".../pending/a:b.md" and reports `exists: false` with a
different path — so create-then-get round-tripping fails for explicit
fileNames that sanitization alters. -/
theorem C6_counterexample :
    createTool "/r/agelum" "now" [] ⟨.task, "T", "", .pending, none, none, some "a:b"⟩ =
      .ok ([("/r/agelum/tasks/pending/ab.md",
            "---\ntitle: T\ncreated: now\ntype: task\nstate: pending\n---\n\n# T\n\n\n")],
          "/r/agelum/tasks/pending/ab.md") ∧
    getTool "/r/agelum"
      [("/r/agelum/tasks/pending/ab.md",
        "---\ntitle: T\ncreated: now\ntype: task\nstate: pending\n---\n\n# T\n\n\n")]
      ⟨.task, "T", some .pending, none, none, some "a:b"⟩ =
      .ok ("/r/agelum/tasks/pending/a:b.md", false) := by
  constructor
  · decide
  · decide

/-- C6 (amended): after a successful `create`, a `get` with identical identity
fields (same type, title, priority, storyPoints, fileName, and a state equal
to the created one — or omitted, when the document was created in the default
`pending` state) returns `exists: true` with the exact path `create` returned,
PROVIDED the explicit fileName, if any, is non-empty and unchanged by
sanitization; in particular this always holds for derived (title-based)
filenames.  (An explicit fileName that sanitization alters breaks the
round-trip — see `C6_counterexample`.) -/
theorem C6_create_then_get :
    ∀ (ag now : String) (fs : FS) (a : CreateArgs) (fs1 : FS) (p : String)
      (gstate : Option TaskState),
      (a.fileName = none ∨
        ∃ f, a.fileName = some f ∧ sanitizeFileNamePart f = f ∧ f ≠ "") →
      (a.type = .task → gstate = some a.state ∨ (gstate = none ∧ a.state = .pending)) →
      createTool ag now fs a = .ok (fs1, p) →
      getTool ag fs1 ⟨a.type, a.title, gstate, a.priority, a.storyPoints, a.fileName⟩ =
        .ok (p, true) := by
  intro ag now fs a fs1 p gstate hfile hstate h
  obtain ⟨n, doc, hres, hp, hex, hc, hfs1⟩ := createTool_ok_inv h
  have hmem : fsExists fs1 p = true := by
    rw [hfs1]
    simp [fsExists, lookupFS_setFS_self]
  have hget : getResolveFileName ⟨a.type, a.title, gstate, a.priority, a.storyPoints,
      a.fileName⟩ = .ok n := by
    rcases hfile with haf | ⟨f, haf, hsan, hf⟩
    · rw [createResolveFileName, haf] at hres
      cases hb : buildFileName a.type a.title a.priority a.storyPoints with
      | error e => rw [hb] at hres; simp at hres
      | ok nb =>
        rw [hb] at hres
        simp only [Except.ok.injEq] at hres
        have htitle0 : a.title ≠ "" := by
          intro h0
          exact buildFileName_ok_title_ne hb (by rw [h0]; decide)
        have hnbne : nb ≠ "" := buildFileName_ok_ne_empty hb
        have hn : n = ensureMdExtension nb := by
          rw [← hres, sanitize_buildFileName hb]
        by_cases htask : a.type = .task
        · obtain ⟨pv, hpv⟩ : ∃ pv, a.priority = some pv := by
            cases hpv : a.priority with
            | none =>
              rw [htask, hpv] at hb
              by_cases ht : sanitizeFileNamePart a.title = "" <;>
                simp [buildFileName, ht] at hb
            | some pv => exact ⟨pv, rfl⟩
          obtain ⟨spv, hspv⟩ : ∃ spv, a.storyPoints = some spv := by
            cases hspv : a.storyPoints with
            | none =>
              rw [htask, hspv] at hb
              by_cases ht : sanitizeFileNamePart a.title = "" <;>
                simp [buildFileName, ht, hpv] at hb
            | some spv => exact ⟨spv, rfl⟩
          have hb2 : buildFileName .task a.title (some pv) (some spv) = .ok nb := by
            rw [← htask, ← hpv, ← hspv]; exact hb
          have hstage1 : getStage1 ⟨a.type, a.title, gstate, a.priority, a.storyPoints,
              a.fileName⟩ = .ok (some nb) := by
            simp [getStage1, haf, optTruthy, htitle0, htask, hpv, hspv, hb2]
          simp [getResolveFileName, hstage1, getStage2, optTruthy, hnbne, hn]
        · have hstage1 : getStage1 ⟨a.type, a.title, gstate, a.priority, a.storyPoints,
              a.fileName⟩ = .ok (some nb) := by
            simp [getStage1, haf, optTruthy, htitle0, htask, hb]
          simp [getResolveFileName, hstage1, getStage2, optTruthy, hnbne, hn, htask]
    · rw [createResolveFileName, haf] at hres
      simp only [Except.ok.injEq] at hres
      have hn : n = ensureMdExtension f := by rw [← hres, hsan]
      have hstage1 : getStage1 ⟨a.type, a.title, gstate, a.priority, a.storyPoints,
          a.fileName⟩ = .ok (some f) := by
        simp [getStage1, haf, optTruthy, hf]
      simp [getResolveFileName, hstage1, getStage2, optTruthy, hf, hn]
  by_cases htask : a.type = .task
  · have hpdef : p = joinPath (taskDirPath ag a.state) n := by
      rw [hp]; simp [createTargetDir, htask]
    rcases hstate htask with hg | ⟨hgnone, hpend⟩
    · refine getTool_first ag fs1 _ n p [] hget ?_ hmem
      simp [getCandidatePaths, htask, hg, hpdef]
    · refine getTool_first ag fs1 _ n p
        [joinPath (taskDirPath ag .doing) n, joinPath (taskDirPath ag .done) n] hget ?_ hmem
      rw [hpdef, hpend]
      simp [getCandidatePaths, htask, hgnone]
  · have hpdef : p = joinPath (joinPath ag (nonTaskTypeToDir a.type)) n := by
      rw [hp]; simp [createTargetDir, htask]
    refine getTool_first ag fs1 _ n p [] hget ?_ hmem
    simp [getCandidatePaths, htask, hpdef]

/-- C6 witness: the create-then-get round trip applied at a concrete task with
a derived filename (priority 3, storyPoints 5, default pending state), reading
back the path `create` produced. -/
theorem C6_create_then_get_witness :
    getTool "/r/agelum"
      [("/r/agelum/tasks/pending/03 Fix bug (5).md",
        "---\ntitle: Fix bug\ncreated: now\ntype: task\nstate: pending\npriority: 03\nstoryPoints: 5\n---\n\n# Fix bug\n\nbody\n")]
      ⟨.task, "Fix bug", none, some (.fin 3), some (.fin 5), none⟩ =
      .ok ("/r/agelum/tasks/pending/03 Fix bug (5).md", true) := by
  have h := C6_create_then_get "/r/agelum" "now" []
    ⟨.task, "Fix bug", "body", .pending, some (.fin 3), some (.fin 5), none⟩
    [("/r/agelum/tasks/pending/03 Fix bug (5).md",
      "---\ntitle: Fix bug\ncreated: now\ntype: task\nstate: pending\npriority: 03\nstoryPoints: 5\n---\n\n# Fix bug\n\nbody\n")]
    "/r/agelum/tasks/pending/03 Fix bug (5).md" none
    (.inl rfl) (fun _ => .inr ⟨rfl, rfl⟩) (by decide)
  exact h
